import Mathlib

/-!
Verification of the spanning-tree server-to-server protocol and related
command handlers of the InspIRCd 1.x source tree.  Each C++ handler that a
claim refers to is shallowly embedded as an executable Lean function over an
explicit state; the theorems below settle the specification claims against
those embeddings.
-/

namespace Insp

/-! ### C library helpers used by the handlers -/

/-- One step of C `atoi` digit accumulation. -/
def atoiDigits : List Char → Int → Int
  | c :: cs, acc =>
      if c.isDigit then atoiDigits cs (acc * 10 + ((c.toNat : Int) - 48)) else acc
  | [], acc => acc

/-- C `atoi`: skip leading whitespace, optional sign, then decimal digits
until the first non-digit; no digits yields 0. -/
def atoi (s : String) : Int :=
  let cs := s.toList.dropWhile (fun c => c = ' ' || c = '\t' || c = '\n' || c = '\r')
  match cs with
  | '-' :: rest => - atoiDigits rest 0
  | '+' :: rest => atoiDigits rest 0
  | _ => atoiDigits cs 0

/-- C `strlcpy(dst, src, size)`: the stored string is `src` truncated to at
most `size - 1` characters (the last byte of the buffer is the NUL). -/
def strlcpy (src : String) (size : Nat) : String :=
  ⟨src.toList.take (size - 1)⟩

/-- Modelled from the spec: configure-time buffer-size constants
(`inspircd_config.h` is generated at build time and is not among the
sources).  The spec lists the lengths as configurable (`max_lengths{...}`);
the theorems below do not depend on the exact values. -/
def MAXTOPIC : Nat := 307

/-- Modelled from the spec: configure-time nickname buffer size, see
`MAXTOPIC`. -/
def NICKMAX : Nat := 32

/-! ### `TreeSocket::ForceTopic` (FTOPIC handler, m_spanningtree.cpp)

The handler receives `FTOPIC <chan> <ts> <setter> :<text>`.  We model the
topic-related fields of the `chanrec` the handler mutates, plus the two
observable side effects: writing a `TOPIC` line to the channel's members and
propagating the `FTOPIC` onward with `DoOneToAllButSender`. -/

/-- The topic fields of a `chanrec`: `c->topic`, `c->setby`, `c->topicset`. -/
structure TopicState where
  topic : String
  setby : String
  topicset : Int
deriving Repr, DecidableEq

/-- Observable effects of `ForceTopic`: whether a `TOPIC` line was written to
the channel (`WriteChannel`/`WriteChannelWithServ`) and whether the `FTOPIC`
was forwarded to the other peers (`DoOneToAllButSender`). -/
structure TopicEffects where
  sentTopicToChannel : Bool
  propagatedToPeers : Bool
deriving Repr, DecidableEq

/-- `TreeSocket::ForceTopic`, for the case where `FindChan` found the
channel (the claims quantify over existing channels).  `params` is the
parameter deque after the prefix and command have been stripped. -/
def forceTopic (c : TopicState) (params : List String) : TopicState × TopicEffects :=
  match params with
  | [_chan, tsStr, setter, text] =>
      let ts := atoi tsStr
      if ts ≥ c.topicset ∨ c.topic = "" then
        let oldtopic := c.topic
        let c' : TopicState :=
          { topic := strlcpy text MAXTOPIC
            setby := strlcpy setter (NICKMAX - 1)
            topicset := ts }
        if oldtopic ≠ text then (c', ⟨true, true⟩) else (c', ⟨false, false⟩)
      else (c, ⟨false, false⟩)
  | _ => (c, ⟨false, false⟩)

/-- Claim C5: an inbound remote FTOPIC for an existing channel overwrites the
topic text, setter and set-time exactly when the carried timestamp is `≥` the
stored topic set-time or the current topic is empty; otherwise the local
topic state is unchanged. -/
theorem forceTopic_overwrite_iff (c : TopicState) (chan tsStr setter text : String) :
    (forceTopic c [chan, tsStr, setter, text]).1 =
      (if atoi tsStr ≥ c.topicset ∨ c.topic = "" then
        { topic := strlcpy text MAXTOPIC
          setby := strlcpy setter (NICKMAX - 1)
          topicset := atoi tsStr }
      else c) := by
  simp only [forceTopic]
  split
  · split <;> rfl
  · rfl

/-- Claim C10: when an inbound FTOPIC passes the timestamp check but carries
text identical to the current topic, the setter and set-time are still
overwritten, the topic text itself is unchanged, and no `TOPIC` line is sent
to the channel nor is the `FTOPIC` propagated to the other peers. -/
theorem forceTopic_same_text_silent (c : TopicState) (chan tsStr setter : String)
    (hpass : atoi tsStr ≥ c.topicset ∨ c.topic = "")
    (hlen : c.topic.length ≤ MAXTOPIC - 1) :
    forceTopic c [chan, tsStr, setter, c.topic] =
      ({ topic := c.topic
         setby := strlcpy setter (NICKMAX - 1)
         topicset := atoi tsStr }, ⟨false, false⟩) := by
  have htrunc : strlcpy c.topic MAXTOPIC = c.topic := by
    have h1 : List.take (MAXTOPIC - 1) c.topic.data = c.topic.data :=
      List.take_of_length_le hlen
    exact congrArg String.mk h1
  simp only [forceTopic]
  rw [if_pos hpass]
  simp only [ne_eq, not_true_eq_false, if_false, htrunc, ite_false]

/-- Witness for C10 at a concrete input: topic "hello" set at time 5,
incoming FTOPIC with ts 6 and the same text. -/
theorem forceTopic_same_text_silent_witness :
    forceTopic ⟨"hello", "x", 5⟩ ["#c", "6", "alice", "hello"] =
      ({ topic := "hello", setby := strlcpy "alice" (NICKMAX - 1), topicset := 6 },
        ⟨false, false⟩) :=
  forceTopic_same_text_silent ⟨"hello", "x", 5⟩ "#c" "6" "alice"
    (by left; decide) (by decide)

/-! ### `TreeSocket::ForceMode` (FMODE handler, m_spanningtree.cpp)

`FMODE <target> <TS> <modeline> [params...]`.  The handler compares the
carried TS with the target's timestamp (`ourTS`) and picks one of three
paths: the TS-equal merge, the "bounce" path that sends a reinforcing or
inverted mode line back to the sender with `DoOneToOne` and applies nothing,
and the accept path that applies the modes locally and forwards the FMODE to
every other peer with `DoOneToAllButSender`. -/

/-- The slice of a `ModeHandler` that `ForceMode`'s bounce loop consults:
`GetModeChar()`, `GetNumParams(adding)` and
`ModeSet(...) : (is the mode set, current parameter)`. -/
structure ModeHandlerM where
  modeChar : Char
  numParams : Bool → Nat
  modeSet : String → Bool × String

/-- Environment of `ForceMode`: the mode registry lookup
(`Modes->FindMode`) and the U-line test (`Instance->ULine`). -/
structure FModeEnv where
  findMode : Char → Option ModeHandlerM
  uline : String → Bool

/-- Accumulator of the "intelligent mode bouncing" loop
(m_spanningtree.cpp lines 1402-1479): the `adding` flag, the parameter
cursor `t` (starting at 3), the bounced mode string, `old_change`
(`\x00` before the first mode char), and the parameters pushed onto the
reply. -/
structure BounceAcc where
  adding : Bool
  t : Nat
  modebounce : String
  oldChange : Char
  outParams : List String

/-- One iteration of the bounce loop over a character of `params[2]`. -/
def bounceStep (env : FModeEnv) (params : List String) (acc : BounceAcc) (x : Char) :
    BounceAcc :=
  match x with
  | '-' => { acc with adding := false }
  | '+' => { acc with adding := true }
  | _ =>
    match env.findMode x with
    | none => acc
    | some mh =>
      let pt : String × Nat :=
        if mh.numParams acc.adding > 0 ∧ acc.t < params.length then
          (params.getD acc.t "", acc.t + 1)
        else ("", acc.t)
      let ret := mh.modeSet pt.1
      let cur : Char :=
        if ¬ret.1 then (if acc.adding then '-' else '+')
        else (if ¬acc.adding then '-' else '+')
      let mb₀ := if cur ≠ acc.oldChange then acc.modebounce.push cur else acc.modebounce
      let mb := mb₀.push mh.modeChar
      let ps :=
        if ret.2.length ≠ 0 ∧ mh.numParams (cur = '+') > 0 then acc.outParams ++ [ret.2]
        else acc.outParams
      { adding := acc.adding, t := pt.2, modebounce := mb, oldChange := cur, outParams := ps }

/-- The reply parameter list built by the bounce path:
`[target, ConvToStr(ourTS), modebounce] ++ pushed parameters`, which is sent
back with `DoOneToOne(..., "FMODE", newparams, sourceserv)`. -/
def bounceLine (env : FModeEnv) (ourTS : Int) (params : List String) : List String :=
  let acc := (params.getD 2 "").toList.foldl (bounceStep env params)
    ⟨true, 3, "", '\x00', []⟩
  [params.getD 0 "", toString ourTS, acc.modebounce] ++ acc.outParams

/-- Outcome of `ForceMode` once the target's timestamp `ourTS` is known.
`merge` is the TS-equal path (lines 1197-1377, parameter-wise
`CheckTimeStamp` arbitration; its internals are not needed by the claims);
`bounceToSender` sends the given FMODE line back with `DoOneToOne` to the
sender's side only and applies nothing; `applyAndPropagate` applies the mode
change locally (`SendMode`/`CallCommandHandler`) and forwards the original
FMODE to every other peer with `DoOneToAllButSender`. -/
inductive FModeDecision where
  | dropMalformed
  | merge
  | bounceToSender (line : List String)
  | applyAndPropagate
deriving Repr, DecidableEq

/-- `TreeSocket::ForceMode`, for a target that exists with timestamp
`ourTS` (the claims quantify over existing channels).  `source` is the
message prefix, `params` the FMODE parameters. -/
def forceMode (env : FModeEnv) (source : String) (ourTS : Int)
    (params : List String) : FModeDecision :=
  if params.length < 3 then .dropMalformed
  else if atoi (params.getD 1 "") = ourTS then .merge
  else if atoi (params.getD 1 "") > ourTS ∧ ¬env.uline source then
    .bounceToSender (bounceLine env ourTS params)
  else .applyAndPropagate

/-- Counterexample to claim C1: an FMODE carrying TS 50 for a
channel with local TS 100, from a sender that is not U-lined, is applied
locally and propagated to the other peers, not bounced; and conversely an
FMODE carrying TS 150 for the same channel is bounced back to the sender,
not applied.  The claim states both directions the other way round. -/
theorem forceMode_claim_false :
    forceMode ⟨fun _ => none, fun _ => false⟩ "other.server" 100
        ["#c", "50", "+s"] = .applyAndPropagate ∧
    forceMode ⟨fun _ => none, fun _ => false⟩ "other.server" 100
        ["#c", "150", "+s"] =
      .bounceToSender ["#c", "100", ""] := by
  constructor <;> rfl

/-- Claim C1 (amended): for an FMODE received for an existing target whose
attached TS differs from the local timestamp `ourTS`, if `TS > ourTS` and
the sender is not U-lined, the change is not applied and a
reinforcing/inverted mode line is sent back only toward the sender; if
instead `TS < ourTS`, or the sender is U-lined, the change is applied
locally and propagated to the other peers. -/
theorem forceMode_ts_rule (env : FModeEnv) (source : String) (ourTS : Int)
    (params : List String) (hlen : 3 ≤ params.length)
    (hne : atoi (params.getD 1 "") ≠ ourTS) :
    (atoi (params.getD 1 "") > ourTS ∧ ¬env.uline source →
      forceMode env source ourTS params = .bounceToSender (bounceLine env ourTS params)) ∧
    (atoi (params.getD 1 "") < ourTS ∨ env.uline source →
      forceMode env source ourTS params = .applyAndPropagate) := by
  have hnotlt : ¬params.length < 3 := by omega
  constructor
  · intro hb
    rw [forceMode, if_neg hnotlt, if_neg hne, if_pos hb]
  · intro ha
    have hnotb : ¬(atoi (params.getD 1 "") > ourTS ∧ ¬env.uline source) := by
      rcases ha with h | h
      · intro hx; omega
      · intro hx; exact hx.2 h
    rw [forceMode, if_neg hnotlt, if_neg hne, if_neg hnotb]

/-- Witness for the amended C1 at concrete inputs: both conjuncts applied to
the concrete environment of the counterexample. -/
theorem forceMode_ts_rule_witness :
    forceMode ⟨fun _ => none, fun _ => false⟩ "svc.net" 100 ["#c", "150", "+s"] =
      .bounceToSender (bounceLine ⟨fun _ => none, fun _ => false⟩ 100 ["#c", "150", "+s"]) ∧
    forceMode ⟨fun _ => none, fun _ => true⟩ "svc.net" 100 ["#c", "150", "+s"] =
      .applyAndPropagate :=
  ⟨(forceMode_ts_rule ⟨fun _ => none, fun _ => false⟩ "svc.net" 100 ["#c", "150", "+s"]
      (by decide) (by decide)).1 (by decide),
   (forceMode_ts_rule ⟨fun _ => none, fun _ => true⟩ "svc.net" 100 ["#c", "150", "+s"]
      (by decide) (by decide)).2 (Or.inr rfl)⟩

/-! ### `TreeSocket::IntroduceClient` (remote NICK introduction, m_spanningtree.cpp)

`NICK age nick host dhost ident +modes ip :gecos` (8 parameters).  The
handler looks the nickname up in `clientlist`; when it is taken it writes a
KILL line on the socket the introduction arrived on, destroys the existing
user with `userrec::QuitUser`, and returns without creating the new user.
Otherwise it creates the remote user, inserts it into `clientlist` and
forwards the introduction to all other peers. -/

/-- Modelled from the spec: configure-time ident buffer size, see
`MAXTOPIC`. -/
def IDENTMAX : Nat := 12

/-- Modelled from the spec: configure-time GECOS buffer size, see
`MAXTOPIC`. -/
def MAXGECOS : Nat := 128

/-- The fields of the `userrec` built by `IntroduceClient`. -/
structure RemoteUser where
  nick : String
  host : String
  dhost : String
  server : String
  ident : String
  fullname : String
  signon : Int
  modes : List Char
  ip : String
deriving Repr, DecidableEq

/-- The nick map (`this->Instance->clientlist`), keyed by nickname. -/
structure IntroState where
  clientlist : List (String × RemoteUser)
deriving Repr, DecidableEq

/-- Observable effects of `IntroduceClient`.  `killLinesOnThisSocket` are
KILL lines written with `this->WriteLine`, i.e. sent only down the link the
introduction arrived on; `quitLocalUser` records a `userrec::QuitUser` call
on an existing user (which, modelled from the spec, removes the user and
fans a QUIT out to co-channel users and to each peer link);
`forwardedToPeers` records the `DoOneToAllButSender("NICK", ...)` fanout of
a successful introduction. -/
structure IntroEffects where
  killLinesOnThisSocket : List String
  quitLocalUser : Option String
  forwardedToPeers : Bool
deriving Repr, DecidableEq

/-- `TreeSocket::IntroduceClient`.  `serverName` is
`this->Instance->Config->ServerName`; `source` is the message prefix. -/
def introduceClient (serverName : String) (st : IntroState) (source : String)
    (params : List String) : IntroState × IntroEffects :=
  if params.length < 8 then (st, ⟨[], none, false⟩)
  else if params.length > 8 then
    (st, ⟨[":" ++ serverName ++ " KILL " ++ params.getD 1 "" ++
           " :Invalid client introduction (" ++ params.getD 1 "" ++ "?)"], none, false⟩)
  else
    match st.clientlist.lookup (params.getD 1 "") with
    | some _ =>
        (⟨st.clientlist.filter (fun p => p.1 ≠ params.getD 1 "")⟩,
         ⟨[":" ++ serverName ++ " KILL " ++ params.getD 1 "" ++ " :Nickname collision"],
          some (params.getD 1 ""), false⟩)
    | none =>
        let u : RemoteUser :=
          { nick := strlcpy (params.getD 1 "") (NICKMAX - 1)
            host := strlcpy (params.getD 2 "") 63
            dhost := strlcpy (params.getD 3 "") 63
            server := source
            ident := strlcpy (params.getD 4 "") IDENTMAX
            fullname := strlcpy (params.getD 7 "") MAXGECOS
            signon := atoi (params.getD 0 "")
            modes := (params.getD 5 "").toList.dropWhile (· = '+')
            ip := params.getD 6 "" }
        (⟨(params.getD 1 "", u) :: st.clientlist⟩, ⟨[], none, true⟩)

/-- A concrete collision scenario: local user `bob` with nick TS 1000 and
the same `ident@host` as the incoming introduction. -/
def bobUser : RemoteUser :=
  { nick := "bob", host := "host", dhost := "dhost", server := "us.net"
    ident := "ident", fullname := "Bob Local", signon := 1000
    modes := [], ip := "1.2.3.4" }

/-- Counterexample to claim C2: a remote introduction of `bob` with lower
timestamp 900 and identical `ident@host` does kill the local `bob` (QUIT
fanout) with a KILL sent only down the arrival link, but the incoming remote
user is NOT accepted: after the handler runs, no user at all holds the
nickname and nothing is forwarded to the other peers. -/
theorem introduceClient_remote_not_accepted :
    (introduceClient "us.net" ⟨[("bob", bobUser)]⟩ "peer.net"
        ["900", "bob", "host", "dhost", "ident", "+", "1.2.3.4", "Bob Remote"]) =
      (⟨[]⟩,
       ⟨[":us.net KILL bob :Nickname collision"], some "bob", false⟩) := by
  rfl

/-- Claim C2 (amended): when a remote user introduction collides with an
existing user in the nick map, then irrespective of the timestamps and of
`user@host`, the handler sends a KILL back along only the link the
introduction arrived on, destroys the existing local user with QUIT fanout,
and discards the incoming introduction: the remote user is not added to the
nick map and nothing is forwarded to the other peers. -/
theorem introduceClient_collision (serverName source : String) (st : IntroState)
    (params : List String) (h8 : params.length = 8)
    (hcol : (st.clientlist.lookup (params.getD 1 "")).isSome) :
    introduceClient serverName st source params =
      (⟨st.clientlist.filter (fun p => p.1 ≠ params.getD 1 "")⟩,
       ⟨[":" ++ serverName ++ " KILL " ++ params.getD 1 "" ++ " :Nickname collision"],
        some (params.getD 1 ""), false⟩) := by
  have h1 : ¬params.length < 8 := by omega
  have h2 : ¬params.length > 8 := by omega
  rw [introduceClient, if_neg h1, if_neg h2]
  obtain ⟨u, hu⟩ := Option.isSome_iff_exists.mp hcol
  rw [hu]

/-- Witness for the amended C2: the collision theorem applied at the
concrete `bob` scenario. -/
theorem introduceClient_collision_witness :
    introduceClient "us.net" ⟨[("bob", bobUser)]⟩ "peer.net"
        ["900", "bob", "host", "dhost", "ident", "+", "1.2.3.4", "Bob Remote"] =
      (⟨[]⟩,
       ⟨[":us.net KILL bob :Nickname collision"], some "bob", false⟩) := by
  have h := introduceClient_collision "us.net" "peer.net" ⟨[("bob", bobUser)]⟩
    ["900", "bob", "host", "dhost", "ident", "+", "1.2.3.4", "Bob Remote"]
    (by decide) (by rw [show List.getD ["900", "bob", "host", "dhost", "ident", "+", "1.2.3.4", "Bob Remote"] 1 "" = "bob" from rfl]; rfl)
  simpa using h

/-! ### `TreeSocket::ProcessLine`, state WAIT_AUTH_2, command BURST

On `BURST <epoch>` the handler computes `delta = their-epoch - our-time`;
`delta` outside ±600 seconds sends an ERROR and drops the link (the handler
returns `false` before reaching the CONNECTED transition); `delta` outside
±30 but within ±600 writes a warning snomask notice and proceeds; otherwise
it proceeds silently.  In all non-abort cases `LinkState` becomes
CONNECTED. -/

/-- Outcome of the BURST handling: `aborted` is `SendError` + `return
false`, which drops the link; `connected` is the transition to the CONNECTED
state, with the flag recording whether the clock-skew warning notice was
written. -/
inductive BurstOutcome where
  | aborted (msg : String)
  | connected (warned : Bool)
deriving Repr, DecidableEq

/-- The BURST branch of `TreeSocket::ProcessLine` in state WAIT_AUTH_2.
`ourTime` is `ServerInstance->Time()`. -/
def handleBurst (ourTime : Int) (params : List String) : BurstOutcome :=
  if params.length ≠ 0 then
    if atoi (params.getD 0 "") - ourTime < -600 ∨ atoi (params.getD 0 "") - ourTime > 600 then
      .aborted ("Your clocks are out by " ++
        toString (atoi (params.getD 0 "") - ourTime).natAbs ++
        " seconds (this is more than five minutes). Link aborted, PLEASE SYNC YOUR CLOCKS!")
    else if atoi (params.getD 0 "") - ourTime < -30 ∨ atoi (params.getD 0 "") - ourTime > 30 then
      .connected true
    else .connected false
  else .connected false

/-- Claim C6: on BURST with an epoch parameter, an absolute clock difference
above 600 seconds aborts the link with an ERROR, and a difference strictly
between 30 and 600 seconds (inclusive of 600) writes a warning notice but
still moves the link to the CONNECTED state. -/
theorem handleBurst_clock_skew (ourTime : Int) (epochStr : String) (rest : List String) :
    (600 < (atoi epochStr - ourTime).natAbs →
      handleBurst ourTime (epochStr :: rest) =
        .aborted ("Your clocks are out by " ++ toString (atoi epochStr - ourTime).natAbs ++
          " seconds (this is more than five minutes). Link aborted, PLEASE SYNC YOUR CLOCKS!")) ∧
    (30 < (atoi epochStr - ourTime).natAbs ∧ (atoi epochStr - ourTime).natAbs ≤ 600 →
      handleBurst ourTime (epochStr :: rest) = .connected true) := by
  have hget : (epochStr :: rest).getD 0 "" = epochStr := rfl
  have hlen : (epochStr :: rest).length ≠ 0 := by simp
  constructor
  · intro habort
    have h1 : atoi epochStr - ourTime < -600 ∨ atoi epochStr - ourTime > 600 := by omega
    rw [handleBurst, if_pos hlen, hget, if_pos h1]
  · intro ⟨hlow, hhigh⟩
    have h1 : ¬(atoi epochStr - ourTime < -600 ∨ atoi epochStr - ourTime > 600) := by omega
    have h2 : atoi epochStr - ourTime < -30 ∨ atoi epochStr - ourTime > 30 := by omega
    rw [handleBurst, if_pos hlen, hget, if_neg h1, if_pos h2]

/-- Witness for C6 at concrete inputs: epoch 700 against local time 0 aborts
the link; epoch 100 against local time 0 warns and proceeds to CONNECTED. -/
theorem handleBurst_clock_skew_witness :
    handleBurst 0 ["700"] =
      .aborted ("Your clocks are out by 700 seconds (this is more than five minutes)." ++
        " Link aborted, PLEASE SYNC YOUR CLOCKS!") ∧
    handleBurst 0 ["100"] = .connected true := by
  refine ⟨?_, (handleBurst_clock_skew 0 "100" []).2 (by decide)⟩
  have h := (handleBurst_clock_skew 0 "700" []).1 (by decide)
  simpa using h

/-! ### `TreeSocket::ProcessLine`, state CONNECTED: the fake-direction check

In the CONNECTED state, a line carrying a non-empty origin prefix is only
processed if the link it arrived on is the best route toward that origin
(`Utils->BestRouteTo(direction)->GetSocket() == this`); otherwise the
handler returns `true` immediately: nothing is dispatched, no state is
mutated, nothing is forwarded, and the link stays up.  An empty prefix is
rewritten to the identity of the link it came from and processing
continues. -/

/-- Routing environment of the prefix check: `FindUUID` resolving a UID
prefix to its user's server, and `BestRouteTo` giving the socket id of the
direct link through which a named server is reached (`none` when there is no
such server). -/
structure RouteEnv where
  findUUID : String → Option String
  bestRouteSocket : String → Option Nat

/-- `direction` as computed by the check: the origin server of a user
prefix, or the prefix itself when it is not a known UID. -/
def originDirection (env : RouteEnv) (pfx : String) : String :=
  match env.findUUID pfx with
  | some srv => srv
  | none => pfx

/-- Result of the prefix segment of `ProcessLine` in state CONNECTED:
`keepLink` is the boolean the handler returns (`false` closes the link);
`dispatched` is the effective prefix handed to command dispatch, or `none`
when the line is dropped before any command handling (so no data-model
mutation and no forwarding can occur). -/
structure PrefixCheckResult where
  keepLink : Bool
  dispatched : Option String
deriving Repr, DecidableEq

/-- The prefix / fake-direction segment of `TreeSocket::ProcessLine` in
state CONNECTED.  `thisSocket` identifies the link the line arrived on;
`linkFallback` is the identity substituted for an empty prefix (the server
id, or name, of the link). -/
def connectedPrefixCheck (env : RouteEnv) (thisSocket : Nat) (linkFallback : String)
    (pfx : String) : PrefixCheckResult :=
  if pfx ≠ "" then
    match env.bestRouteSocket (originDirection env pfx) with
    | none => ⟨true, none⟩
    | some s => if s ≠ thisSocket then ⟨true, none⟩ else ⟨true, some pfx⟩
  else ⟨true, some linkFallback⟩

/-- Claim C4: a line received in the CONNECTED state with an origin prefix
whose route is not the link it arrived on is dropped silently: command
dispatch is never reached (hence no state change and no forwarding) and the
handler returns `true`, keeping the link up. -/
theorem connectedPrefixCheck_fake_direction (env : RouteEnv) (thisSocket : Nat)
    (linkFallback pfx : String) (hne : pfx ≠ "")
    (hfake : env.bestRouteSocket (originDirection env pfx) ≠ some thisSocket) :
    connectedPrefixCheck env thisSocket linkFallback pfx = ⟨true, none⟩ := by
  rw [connectedPrefixCheck, if_pos hne]
  cases hroute : env.bestRouteSocket (originDirection env pfx) with
  | none => rfl
  | some s =>
      have hs : s ≠ thisSocket := by
        intro h
        exact hfake (by rw [hroute, h])
      simp [hs]

/-- Witness for C4 at a concrete input: server `0AA` is routed via socket 1,
but the line claiming origin `0AA` arrived on socket 2; it is dropped with
the link kept up. -/
theorem connectedPrefixCheck_fake_direction_witness :
    connectedPrefixCheck
        ⟨fun _ => none, fun d => if d = "0AA" then some 1 else none⟩ 2 "peer.net" "0AA" =
      ⟨true, none⟩ :=
  connectedPrefixCheck_fake_direction
    ⟨fun _ => none, fun d => if d = "0AA" then some 1 else none⟩ 2 "peer.net" "0AA"
    (by decide) (by simp [originDirection])

/-! ### `cmd_user::Handle` (the USER command)

A user may only send USER once: if the `REG_USER` registration bit is
already set the handler writes numeric 462 ("You may not reregister") and
fails without touching the user.  Otherwise it validates the parameters
(461 on failure), stores ident and GECOS and sets the bit; when the user
then has both NICK and USER bits, the `OnUserRegister` hook chain runs and
may veto. -/

/-- Registration bit for a completed USER command.  Modelled from the spec:
the bit constants live in `users.h`, which is not among the sources; the
spec lists the registration bits, and only the bit tests matter here. -/
def REG_USER : Nat := 1

/-- Registration state value meaning both NICK and USER have been received.
Modelled from the spec, see `REG_USER`. -/
def REG_NICKUSER : Nat := 3

/-- The fields of a `userrec` that `cmd_user::Handle` reads or writes. -/
structure UserReg where
  registered : Nat
  ident : String
  fullname : String
deriving Repr, DecidableEq

/-- Command handler results (`CmdResult`). -/
inductive CmdResultM where
  | success
  | failure
deriving Repr, DecidableEq

/-- `cmd_user::Handle`.  `isIdent` is `ServerInstance->IsIdent`;
`hookVeto` tells whether the `OnUserRegister` hook chain returns a positive
`MOD_RESULT`; `p0` and `p3` are `parameters[0]` (ident) and `parameters[3]`
(GECOS).  The second component lists the numerics written to the user. -/
def cmd_user_Handle (isIdent : String → Bool) (hookVeto : Bool) (p0 p3 : String)
    (u : UserReg) : UserReg × List Nat × CmdResultM :=
  if u.registered &&& REG_USER = 0 then
    if p3 = "" ∨ ¬ isIdent p0 then (u, [461], .failure)
    else
      if (u.registered ||| REG_USER) = REG_NICKUSER ∧ hookVeto then
        ({ registered := u.registered ||| REG_USER
           ident := strlcpy p0 IDENTMAX
           fullname := strlcpy p3 MAXGECOS }, [], .failure)
      else
        ({ registered := u.registered ||| REG_USER
           ident := strlcpy p0 IDENTMAX
           fullname := strlcpy p3 MAXGECOS }, [], .success)
  else (u, [462], .failure)

/-- Claim C9: a connection whose USER registration bit is already set gets
numeric 462 "You may not reregister" from a further USER command, the
command fails, and the user's ident, real name and registration state are
all left unchanged. -/
theorem cmd_user_reregister (isIdent : String → Bool) (hookVeto : Bool)
    (p0 p3 : String) (u : UserReg) (hreg : u.registered &&& REG_USER ≠ 0) :
    cmd_user_Handle isIdent hookVeto p0 p3 u = (u, [462], .failure) := by
  rw [cmd_user_Handle, if_neg hreg]

/-- Witness for C9: a fully registered user re-sends USER with fresh ident
and GECOS; nothing changes and 462 is written. -/
theorem cmd_user_reregister_witness :
    cmd_user_Handle (fun _ => true) false "newident" "New Name"
        ⟨7, "olduser", "Old Name"⟩ =
      (⟨7, "olduser", "Old Name"⟩, [462], .failure) :=
  cmd_user_reregister (fun _ => true) false "newident" "New Name"
    ⟨7, "olduser", "Old Name"⟩ (by decide)

/-! ### `ListModeBase` (u_listmode.h): generic channel list modes

`OnModeChange` with `adding` set cleans the mask (when `tidy`), denies a
mask already present (stored masks are `irc::string`, so the comparison is
case-insensitive), then walks the configured limit table: the first entry
whose channel pattern matches and whose limit exceeds the current size
accepts the mask (after `ValidateParam`); if no entry accepts, numeric 478
"Channel ban/ignore list is full" is written, the parameter is cleared, and
the change is denied.  `DoRehash` installs the single entry `{"*", 64}` when
no `<banlist>` tag is configured. -/

/-- Modelled from the spec: the rfc1459 case map used by `irc::string`
comparisons (`{}|^` == `[]\~`, ASCII letters compare case-insensitively);
its implementation (`hashcomp`) is not among the sources. -/
def ircLower (c : Char) : Char :=
  if 'A' ≤ c ∧ c ≤ 'Z' then Char.ofNat (c.toNat + 32)
  else if c = '[' then '{'
  else if c = ']' then '}'
  else if c = '\\' then '|'
  else if c = '~' then '^'
  else c

/-- Case-insensitive equality of an added parameter with a stored
`irc::string` mask. -/
def ircEq (a b : String) : Bool :=
  decide (a.toList.map ircLower = b.toList.map ircLower)

/-- Fuel-driven core of the wildcard matcher: every backtracking step
shortens the pattern or the subject, so `p.length + s.length + 1` units of
fuel always suffice. -/
def matchWildFuel : Nat → List Char → List Char → Bool
  | 0, _, _ => false
  | _ + 1, [], [] => true
  | fuel + 1, '*' :: ps, [] => matchWildFuel fuel ps []
  | fuel + 1, '*' :: ps, c :: cs =>
      matchWildFuel fuel ps (c :: cs) || matchWildFuel fuel ('*' :: ps) cs
  | fuel + 1, '?' :: ps, _ :: cs => matchWildFuel fuel ps cs
  | fuel + 1, a :: ps, c :: cs => (ircLower a == ircLower c) && matchWildFuel fuel ps cs
  | _ + 1, _, _ => false

/-- Modelled from the spec: the wildcard matcher `match()` of
`wildcard.cpp` (not among the sources): `*` matches any run, `?` any one
character, and other characters compare under the case map. -/
def matchWild (p s : List Char) : Bool :=
  matchWildFuel (p.length + s.length + 1) p s

/-- A `ListItem`: setter nick, stored mask, set time. -/
structure ListItemM where
  nick : String
  mask : String
  time : String
deriving Repr, DecidableEq

/-- A `ListLimit` entry of the configured limit table. -/
structure ListLimitM where
  mask : String
  limit : Nat
deriving Repr, DecidableEq

/-- The limit table `DoRehash` installs when the configuration has no
matching `<banlist>` entry (u_listmode.h lines 182-188). -/
def defaultChanLimits : List ListLimitM := [⟨"*", 64⟩]

/-- `ModeAction`. -/
inductive ModeActionM where
  | allow
  | deny
deriving Repr, DecidableEq

/-- Result of the adding path of `ListModeBase::OnModeChange`: the action
returned, the list afterwards, whether numeric 478 was written
(`TellListTooLong` of the base class returns false, so the numeric goes
out), whether `TellAlreadyOnList` ran, and the final value of the
by-reference `parameter`. -/
structure ListModeOut where
  action : ModeActionM
  list : List ListItemM
  numeric478 : Bool
  toldAlready : Bool
  paramOut : String
deriving Repr, DecidableEq

/-- The `for (limitlist::iterator it = chanlimits.begin(); ...)` loop of
`OnModeChange`: the first entry whose pattern matches the channel name and
whose limit exceeds the current size decides via `ValidateParam`; falling
off the end writes 478 and denies with the parameter cleared. -/
def listAddLoop (el : List ListItemM) (chanName parameter srcNick now : String)
    (validate : String → Bool) : List ListLimitM → ListModeOut
  | [] => ⟨.deny, el, true, false, ""⟩
  | l :: ls =>
      if matchWild l.mask.toList chanName.toList ∧ el.length < l.limit then
        if validate parameter then
          ⟨.allow, el ++ [⟨srcNick, parameter, now⟩], false, false, parameter⟩
        else ⟨.deny, el, false, false, parameter⟩
      else listAddLoop el chanName parameter srcNick now validate ls

/-- The cleaned form of an added parameter. -/
def cleanedParam (tidy : Bool) (cleanMask : String → String) (param : String) : String :=
  if tidy then cleanMask param else param

/-- The adding branch of `ListModeBase::OnModeChange`.  `tidy`/`cleanMask`
model the optional `ModeParser::CleanMask` canonicalization (modelled from
the spec; `mode.cpp` is not among the sources), `validate` is
`ValidateParam` (the base class accepts everything), `el` the current list
(`nullptr` becomes the empty list). -/
def onModeChangeAdd (tidy : Bool) (cleanMask : String → String)
    (validate : String → Bool) (chanlimits : List ListLimitM)
    (el : List ListItemM) (chanName param srcNick now : String) : ListModeOut :=
  if el.any (fun it => ircEq (cleanedParam tidy cleanMask param) it.mask) then
    ⟨.deny, el, false, true, cleanedParam tidy cleanMask param⟩
  else
    listAddLoop el chanName (cleanedParam tidy cleanMask param) srcNick now
      validate chanlimits

/-- Sequential additions (`addAll masks el` performs one `OnModeChange`
add per mask, left to right); the boolean records whether every single
addition returned `MODEACTION_ALLOW`. -/
def addAll (tidy : Bool) (cleanMask : String → String) (validate : String → Bool)
    (chanlimits : List ListLimitM) (chanName srcNick now : String) :
    List String → List ListItemM → List ListItemM × Bool
  | [], el => (el, true)
  | m :: ms, el =>
      ((addAll tidy cleanMask validate chanlimits chanName srcNick now ms
          (onModeChangeAdd tidy cleanMask validate chanlimits el chanName m srcNick
            now).list).1,
       ((onModeChangeAdd tidy cleanMask validate chanlimits el chanName m srcNick
            now).action = .allow : Bool) &&
         (addAll tidy cleanMask validate chanlimits chanName srcNick now ms
           (onModeChangeAdd tidy cleanMask validate chanlimits el chanName m srcNick
             now).list).2)

/-- With enough fuel, the single pattern `*` matches any subject. -/
theorem matchWildFuel_star (s : List Char) :
    ∀ fuel, s.length + 2 ≤ fuel → matchWildFuel fuel ['*'] s = true := by
  induction s with
  | nil =>
      intro fuel h
      obtain ⟨g, rfl⟩ : ∃ g, fuel = g + 2 := ⟨fuel - 2, by omega⟩
      rfl
  | cons c cs ih =>
      intro fuel h
      have h' : cs.length + 3 ≤ fuel := by simpa [Nat.succ_le_iff] using h
      obtain ⟨g, rfl⟩ : ∃ g, fuel = g + 3 := ⟨fuel - 3, by omega⟩
      have h1 : matchWildFuel (g + 2) ['*'] cs = true := ih (g + 2) (by omega)
      calc matchWildFuel (g + 3) ['*'] (c :: cs)
          = (matchWildFuel (g + 2) [] (c :: cs) || matchWildFuel (g + 2) ['*'] cs) := rfl
        _ = (false || matchWildFuel (g + 2) ['*'] cs) := rfl
        _ = true := by rw [h1]; rfl

/-- `*` matches every channel name. -/
theorem matchWild_star (s : List Char) : matchWild ['*'] s = true :=
  matchWildFuel_star s (List.length ['*'] + s.length + 1)
    (by simp only [List.length_singleton]; omega)

/-- `ircEq` is reflexive. -/
theorem ircEq_refl (a : String) : ircEq a a = true := by
  simp [ircEq]

/-- The limit loop either leaves the list alone (deny) or appends exactly
the new item (allow). -/
theorem listAddLoop_list (el : List ListItemM) (chanName parameter srcNick now : String)
    (validate : String → Bool) (ls : List ListLimitM) :
    (listAddLoop el chanName parameter srcNick now validate ls).list = el ∨
    (listAddLoop el chanName parameter srcNick now validate ls).list =
      el ++ [⟨srcNick, parameter, now⟩] := by
  induction ls with
  | nil => left; rfl
  | cons l ls ih =>
      rw [listAddLoop]
      split
      · split
        · right; rfl
        · left; rfl
      · exact ih

/-- Claim C8: adding a mask that is already present case-insensitively is
denied and leaves the list unchanged, and adding the same mask twice in
succession yields the same list state as adding it once. -/
theorem listmode_dedup (tidy : Bool) (cleanMask : String → String)
    (validate : String → Bool) (chanlimits : List ListLimitM)
    (el : List ListItemM) (chanName param srcNick now : String) :
    (el.any (fun it => ircEq (cleanedParam tidy cleanMask param) it.mask) = true →
      onModeChangeAdd tidy cleanMask validate chanlimits el chanName param srcNick now =
        ⟨.deny, el, false, true, cleanedParam tidy cleanMask param⟩) ∧
    (onModeChangeAdd tidy cleanMask validate chanlimits
        (onModeChangeAdd tidy cleanMask validate chanlimits el chanName param srcNick
          now).list chanName param srcNick now).list =
      (onModeChangeAdd tidy cleanMask validate chanlimits el chanName param srcNick
        now).list := by
  constructor
  · intro hdup
    rw [onModeChangeAdd, if_pos hdup]
  · by_cases hdup :
      el.any (fun it => ircEq (cleanedParam tidy cleanMask param) it.mask) = true
    · have h1 : onModeChangeAdd tidy cleanMask validate chanlimits el chanName param
          srcNick now =
          ⟨.deny, el, false, true, cleanedParam tidy cleanMask param⟩ := by
        rw [onModeChangeAdd, if_pos hdup]
      rw [h1]
      show (onModeChangeAdd tidy cleanMask validate chanlimits el chanName param
        srcNick now).list = el
      rw [h1]
    · have h1 : onModeChangeAdd tidy cleanMask validate chanlimits el chanName param
          srcNick now =
          listAddLoop el chanName (cleanedParam tidy cleanMask param) srcNick now
            validate chanlimits := by
        rw [onModeChangeAdd, if_neg hdup]
      rcases listAddLoop_list el chanName (cleanedParam tidy cleanMask param)
        srcNick now validate chanlimits with hl | hl
      · have hlist : (onModeChangeAdd tidy cleanMask validate chanlimits el chanName
            param srcNick now).list = el := by rw [h1]; exact hl
        rw [hlist]
        exact hlist
      · have hlist : (onModeChangeAdd tidy cleanMask validate chanlimits el chanName
            param srcNick now).list =
            el ++ [⟨srcNick, cleanedParam tidy cleanMask param, now⟩] := by
          rw [h1]; exact hl
        rw [hlist]
        have hdup2 : ((el ++ [(⟨srcNick, cleanedParam tidy cleanMask param, now⟩ :
            ListItemM)]).any
            (fun it => ircEq (cleanedParam tidy cleanMask param) it.mask)) = true := by
          simp [List.any_append, ircEq_refl]
        rw [onModeChangeAdd, if_pos hdup2]

/-- `ircEq` is symmetric. -/
theorem ircEq_symm (a b : String) : ircEq a b = ircEq b a :=
  decide_eq_decide.mpr eq_comm

/-- A single addition against the default limit table succeeds whenever the
mask is fresh and the list holds fewer than 64 entries. -/
theorem onModeChangeAdd_allows (tidy : Bool) (cleanMask : String → String)
    (el : List ListItemM) (chanName m srcNick now : String)
    (hfresh : el.any
      (fun it => ircEq (cleanedParam tidy cleanMask m) it.mask) = false)
    (hlen : el.length < 64) :
    onModeChangeAdd tidy cleanMask (fun _ => true) defaultChanLimits el chanName m
        srcNick now =
      ⟨.allow, el ++ [⟨srcNick, cleanedParam tidy cleanMask m, now⟩], false, false,
        cleanedParam tidy cleanMask m⟩ := by
  have hfresh' :
      ¬ (el.any (fun it => ircEq (cleanedParam tidy cleanMask m) it.mask)) = true := by
    rw [hfresh]; simp
  rw [onModeChangeAdd, if_neg hfresh', defaultChanLimits, listAddLoop]
  have hstar : matchWild (("*" : String)).toList chanName.toList = true :=
    matchWild_star _
  rw [if_pos ⟨hstar, hlen⟩, if_pos rfl]

/-- Sequentially adding case-insensitively fresh, pairwise-distinct masks
while the list stays within the 64-entry default cap accepts every one of
them and appends them in order. -/
theorem addAll_ok (tidy : Bool) (cleanMask : String → String)
    (chanName srcNick now : String) (masks : List String) (el : List ListItemM)
    (hlen : el.length + masks.length ≤ 64)
    (hfresh : ∀ m ∈ masks, el.any
      (fun it => ircEq (cleanedParam tidy cleanMask m) it.mask) = false)
    (hdist : (masks.map (cleanedParam tidy cleanMask)).Pairwise
      (fun a b => ircEq a b = false)) :
    addAll tidy cleanMask (fun _ => true) defaultChanLimits chanName srcNick now masks
        el =
      (el ++ masks.map (fun m => ⟨srcNick, cleanedParam tidy cleanMask m, now⟩), true) := by
  induction masks generalizing el with
  | nil => simp [addAll]
  | cons m ms ih =>
      have hm := hfresh m (List.mem_cons_self m ms)
      have hadd := onModeChangeAdd_allows tidy cleanMask el chanName m srcNick now hm
        (by simp at hlen; omega)
      have hdist' : (∀ a ∈ ms, ircEq (cleanedParam tidy cleanMask m)
          (cleanedParam tidy cleanMask a) = false) ∧
          List.Pairwise (fun a b => ircEq a b = false)
            (List.map (cleanedParam tidy cleanMask) ms) := by
        simpa using hdist
      rw [addAll, hadd]
      have hfresh2 : ∀ m' ∈ ms,
          ((el ++ [(⟨srcNick, cleanedParam tidy cleanMask m, now⟩ : ListItemM)]).any
            (fun it => ircEq (cleanedParam tidy cleanMask m') it.mask)) = false := by
        intro m' hm'
        rw [List.any_append]
        have h1 := hfresh m' (List.mem_cons_of_mem m hm')
        have h2 : ircEq (cleanedParam tidy cleanMask m') (cleanedParam tidy cleanMask m)
            = false := by
          rw [ircEq_symm]
          exact hdist'.1 m' hm'
        simp [h1, h2]
      have hrec := ih (el ++ [⟨srcNick, cleanedParam tidy cleanMask m, now⟩])
        (by simp at hlen ⊢; omega) hfresh2 hdist'.2
      rw [hrec]
      simp

/-- Claim C7: with the default limit table (a single `{"*", 64}` entry),
adding 64 case-insensitively distinct masks to an empty list accepts all 64,
and a further fresh mask is denied with numeric 478 "Channel ban/ignore list
is full", the parameter cleared, and the stored list unchanged. -/
theorem listmode_cap_64 (tidy : Bool) (cleanMask : String → String)
    (masks : List String) (chanName srcNick now extra : String)
    (h64 : masks.length = 64)
    (hdist : (masks.map (cleanedParam tidy cleanMask)).Pairwise
      (fun a b => ircEq a b = false)) :
    (addAll tidy cleanMask (fun _ => true) defaultChanLimits chanName srcNick now masks
      []).2 = true ∧
    (addAll tidy cleanMask (fun _ => true) defaultChanLimits chanName srcNick now masks
      []).1.length = 64 ∧
    ((addAll tidy cleanMask (fun _ => true) defaultChanLimits chanName srcNick now masks
        []).1.any
      (fun it => ircEq (cleanedParam tidy cleanMask extra) it.mask) = false →
      onModeChangeAdd tidy cleanMask (fun _ => true) defaultChanLimits
          (addAll tidy cleanMask (fun _ => true) defaultChanLimits chanName srcNick now
            masks []).1 chanName extra srcNick now =
        ⟨.deny,
          (addAll tidy cleanMask (fun _ => true) defaultChanLimits chanName srcNick now
            masks []).1, true, false, ""⟩) := by
  have hall := addAll_ok tidy cleanMask chanName srcNick now masks []
    (by simp [h64]) (by intro m _; rfl) hdist
  have h1 : (addAll tidy cleanMask (fun _ => true) defaultChanLimits chanName srcNick
      now masks []).1 =
      List.map (fun m => (⟨srcNick, cleanedParam tidy cleanMask m, now⟩ : ListItemM))
        masks := by
    rw [hall]; simp
  have h2 : (addAll tidy cleanMask (fun _ => true) defaultChanLimits chanName srcNick
      now masks []).2 = true := by
    rw [hall]
  have hmaplen : (List.map (fun m => (⟨srcNick, cleanedParam tidy cleanMask m, now⟩ :
      ListItemM)) masks).length = 64 := by
    simp [h64]
  refine ⟨h2, by rw [h1]; exact hmaplen, ?_⟩
  intro hfresh
  rw [h1] at hfresh ⊢
  have hfresh' : ¬ ((List.map
      (fun m => (⟨srcNick, cleanedParam tidy cleanMask m, now⟩ : ListItemM)) masks).any
      (fun it => ircEq (cleanedParam tidy cleanMask extra) it.mask)) = true := by
    rw [hfresh]
    simp
  have hnot : ¬ (matchWild (("*" : String)).toList chanName.toList = true ∧
      (List.map (fun m => (⟨srcNick, cleanedParam tidy cleanMask m, now⟩ : ListItemM))
        masks).length < 64) := by
    intro hcond
    omega
  rw [onModeChangeAdd, if_neg hfresh', defaultChanLimits, listAddLoop, if_neg hnot,
    listAddLoop]

/-- The 64 concrete masks `b0!*@* … b63!*@*` used by the C7 witness. -/
def masks64 : List String := (List.range 64).map (fun i => "b" ++ toString i ++ "!*@*")

set_option maxRecDepth 8000 in
/-- Witness for C7: the cap theorem applied at 64 concrete distinct masks
and the fresh 65th mask `extra!*@*`. -/
theorem listmode_cap_64_witness :
    (addAll false id (fun _ => true) defaultChanLimits "#c" "alice" "100" masks64
      []).2 = true ∧
    (addAll false id (fun _ => true) defaultChanLimits "#c" "alice" "100" masks64
      []).1.length = 64 ∧
    onModeChangeAdd false id (fun _ => true) defaultChanLimits
        (addAll false id (fun _ => true) defaultChanLimits "#c" "alice" "100" masks64
          []).1 "#c" "extra!*@*" "alice" "100" =
      ⟨.deny,
        (addAll false id (fun _ => true) defaultChanLimits "#c" "alice" "100" masks64
          []).1, true, false, ""⟩ := by
  have h := listmode_cap_64 false id masks64 "#c" "alice" "100" "extra!*@*"
    (by decide) (by decide)
  exact ⟨h.1, h.2.1, h.2.2 (by decide)⟩

/-- Witness for C8 at a concrete input: with one ban `Guest!*@*` stored,
adding `GUEST!*@*` (case-insensitively equal) is denied with the list
unchanged, and the double-add law evaluated at the same input. -/
theorem listmode_dedup_witness :
    onModeChangeAdd false id (fun _ => true) defaultChanLimits
        [⟨"alice", "Guest!*@*", "10"⟩] "#c" "GUEST!*@*" "bob" "11" =
      ⟨.deny, [⟨"alice", "Guest!*@*", "10"⟩], false, true, "GUEST!*@*"⟩ ∧
    (onModeChangeAdd false id (fun _ => true) defaultChanLimits
        (onModeChangeAdd false id (fun _ => true) defaultChanLimits
          [⟨"alice", "Guest!*@*", "10"⟩] "#c" "GUEST!*@*" "bob" "11").list
        "#c" "GUEST!*@*" "bob" "11").list =
      (onModeChangeAdd false id (fun _ => true) defaultChanLimits
        [⟨"alice", "Guest!*@*", "10"⟩] "#c" "GUEST!*@*" "bob" "11").list :=
  ⟨(listmode_dedup false id (fun _ => true) defaultChanLimits
      [⟨"alice", "Guest!*@*", "10"⟩] "#c" "GUEST!*@*" "bob" "11").1 (by decide),
   (listmode_dedup false id (fun _ => true) defaultChanLimits
      [⟨"alice", "Guest!*@*", "10"⟩] "#c" "GUEST!*@*" "bob" "11").2⟩

/-! ### `TreeSocket::ForceJoin` (FJOIN handler, m_spanningtree.cpp)

`FJOIN <chan> <TS> :<prefixes,nick> <prefixes,nick> …`.  The handler
compares the carried TS with the local channel timestamp; when the local
side loses (`ourTS > TS`) it lowers the channel TS first, strips every
status mode from every existing member through `RemoveStatus` (which emits
confirming `-`-mode FMODE lines to every peer with `DoOneToMany`), forwards
the FJOIN to the other peers, and then walks the member tokens: prefixes
are translated to mode letters via `Modes->FindPrefix` (an unknown prefix
closes the link with an ERROR), unknown nicks are skipped, nicks whose
route is not the arrival link are not joined (per-user fake direction), and
the remaining users are joined; the collected `+qaohv`-style modes are
applied when `ourTS ≥ TS` after the lowering.

Modelling notes: the `irc::modestacker` batching (both in `RemoveStatus`
and in the MAXMODES-sized `SendMode` flushes of the member loop) is folded
into, respectively, one list of removal pairs and one application of the
collected pairs at the end of the loop; the mode parser's effect of a
`+qaohv` line on per-member status and of a `-`-line removal is modelled
from the spec (`mode.cpp` is not among the sources). -/

/-- A channel member: nickname and the prefix-mode letters held. -/
structure Member where
  nick : String
  status : List Char
deriving Repr, DecidableEq

/-- The FJOIN-relevant fields of a `chanrec`: `age` and the membership
map with per-member status. -/
structure ChanRec where
  age : Int
  members : List Member
deriving Repr, DecidableEq

/-- Environment of `ForceJoin`: `Modes->FindPrefix` (prefix character to
mode letter), `FindNick`, the owning server of a nick, and
`BestRouteTo(server)->GetSocket()`. -/
structure FJoinEnv where
  findPrefix : Char → Option Char
  userExists : String → Bool
  userServer : String → String
  routeSocketOf : String → Option Nat

/-- All statuses of all members, as `(mode letter, nick)` pairs: the content
`RemoveStatus` pushes into its mode stacker and emits as FMODE lines. -/
def removeStatusPairs (members : List Member) : List (Char × String) :=
  members.flatMap (fun m => m.status.map (fun ch => (ch, m.nick)))

/-- Strip every status mode from every member (the local effect of the
`-`-mode lines `RemoveStatus` sends through `SendMode`). -/
def clearStatus (members : List Member) : List Member :=
  members.map (fun m => ⟨m.nick, []⟩)

/-- `chanrec::JoinUser` on an existing channel: a no-op for an existing
member, otherwise a new membership with no status. -/
def joinMember (members : List Member) (nick : String) : List Member :=
  if members.any (fun m => m.nick = nick) then members
  else members ++ [⟨nick, []⟩]

/-- Join each nick in turn. -/
def joinNicks (members : List Member) (nicks : List String) : List Member :=
  nicks.foldl joinMember members

/-- Give `nick` the status letter `letter` (modelled from the spec: the
mode parser's effect of one `+<letter> <nick>` on the membership). -/
def addStatus (members : List Member) (letter : Char) (nick : String) : List Member :=
  members.map (fun m =>
    if m.nick = nick then
      { m with status := if letter ∈ m.status then m.status else m.status ++ [letter] }
    else m)

/-- Apply a collected list of `(letter, nick)` status modes. -/
def applyPairs (members : List Member) (pairs : List (Char × String)) : List Member :=
  pairs.foldl (fun ms p => addStatus ms p.1 p.2) members

/-- Translate a token's prefix characters to mode letters; `none` when one
of them has no prefix handler (`ERROR :Invalid prefix … in FJOIN`). -/
def parsePerms (env : FJoinEnv) : List Char → Option (List Char)
  | [] => some []
  | p :: ps =>
      match env.findPrefix p with
      | none => none
      | some letter => (parsePerms env ps).map (letter :: ·)

/-- State of the member-token loop: the channel being mutated, the
collected status modes awaiting `SendMode`, and a pending ERROR close. -/
structure FJoinLoopState where
  chan : Option ChanRec
  toApply : List (Char × String)
  errorClosed : Option String
deriving Repr, DecidableEq

/-- The nick part of a member token: everything after the first comma. -/
def tokNick (tok : String) : String :=
  ⟨(tok.data.dropWhile (· ≠ ',')).drop 1⟩

/-- `JoinUser` as used inside the member loop: joins the nick to the
channel, creating it (with `age := now`) when it does not exist yet. -/
def fjoinJoin (now : Int) (chanOpt : Option ChanRec) (nick : String) : ChanRec :=
  match chanOpt with
  | some c => { c with members := joinMember c.members nick }
  | none => { age := now, members := [⟨nick, []⟩] }

/-- One member token (`<prefixes>,<nick>`) of the FJOIN.  The mode letters
are collected for every existing nick (the C code appends them to the
pending mode line before the per-user direction check); `JoinUser` runs
only when the nick's route is the arrival link; a nick unknown locally is
skipped; an invalid prefix closes the link. -/
def fjoinStep (env : FJoinEnv) (thisSocket : Nat) (now : Int)
    (st : FJoinLoopState) (tok : String) : FJoinLoopState :=
  if st.errorClosed.isSome then st
  else
    match parsePerms env (tok.data.takeWhile (· ≠ ',')) with
    | none => { st with errorClosed := some "Invalid prefix in FJOIN" }
    | some letters =>
        if env.userExists (tokNick tok) then
          if env.routeSocketOf (env.userServer (tokNick tok)) = some thisSocket then
            ⟨some (fjoinJoin now st.chan (tokNick tok)),
             st.toApply ++ letters.map (fun letter => (letter, tokNick tok)),
             none⟩
          else
            { st with toApply := st.toApply ++
                letters.map (fun letter => (letter, tokNick tok)) }
        else st

/-- Result of `ForceJoin`: the channel afterwards, the removal pairs
emitted as confirming FMODE lines to every peer (`DoOneToMany`), whether
the FJOIN was forwarded to the other peers, and a pending ERROR close. -/
structure FJoinResult where
  chan : Option ChanRec
  fmodeRemovals : List (Char × String)
  forwarded : Bool
  errorClosed : Option String
deriving Repr, DecidableEq

/-- `ourTS`: the channel's age, or `now + 600` when it does not exist. -/
def fjoinOurTS (now : Int) : Option ChanRec → Int
  | some c => c.age
  | none => now + 600

/-- The TS-lowering phase: when the local side loses and the channel
exists, lower its age and strip all statuses, returning also the removal
pairs `RemoveStatus` emits. -/
def fjoinLower (chan0 : Option ChanRec) (TS ourTS : Int) :
    Option ChanRec × List (Char × String) :=
  if ourTS > TS then
    match chan0 with
    | some c => (some ⟨TS, clearStatus c.members⟩, removeStatusPairs c.members)
    | none => (none, [])
  else (chan0, [])

/-- `TreeSocket::ForceJoin` after the 3-parameter check, operating on the
channel named by `params[0]` (`chan0 = none` when `FindChan` failed). -/
def forceJoinChecked (env : FJoinEnv) (thisSocket : Nat) (now : Int)
    (chan0 : Option ChanRec) (TS : Int) (toks : List String) : FJoinResult :=
  let lowered := fjoinLower chan0 TS (fjoinOurTS now chan0)
  let ourTS1 : Int := if fjoinOurTS now chan0 > TS then TS else fjoinOurTS now chan0
  let st := toks.foldl (fjoinStep env thisSocket now) ⟨lowered.1, [], none⟩
  match st.errorClosed with
  | some e => ⟨st.chan, lowered.2, true, some e⟩
  | none =>
      let applied : Option ChanRec :=
        match st.chan with
        | some c => some (if ourTS1 ≥ TS then { c with members := applyPairs c.members st.toApply } else c)
        | none => none
      ⟨(if chan0.isNone then
          match applied with
          | some c => some { c with age := TS }
          | none => none
        else applied), lowered.2, true, none⟩

/-- Split a character list at every single space (the behaviour of
`irc::tokenstream` on the member blob). -/
def splitOnSpace : List Char → List (List Char)
  | [] => [[]]
  | c :: cs =>
      if c = ' ' then [] :: splitOnSpace cs
      else
        match splitOnSpace cs with
        | t :: ts => (c :: t) :: ts
        | [] => [[c]]

/-- The member tokens of an FJOIN: the blob split on spaces, stopping at
the first empty token (the C loop runs `while (item != "")`). -/
def fjoinTokens (blob : String) : List String :=
  ((splitOnSpace blob.data).map (fun t => (⟨t⟩ : String))).takeWhile (· ≠ "")

/-- `TreeSocket::ForceJoin`.  The member blob `params[2]` is split on
spaces (`irc::tokenstream`); the loop stops at the first empty token. -/
def forceJoin (env : FJoinEnv) (thisSocket : Nat) (now : Int)
    (chan0 : Option ChanRec) (params : List String) : FJoinResult :=
  if params.length < 3 then ⟨chan0, [], false, none⟩
  else
    forceJoinChecked env thisSocket now chan0 (atoi (params.getD 1 ""))
      (fjoinTokens (params.getD 2 ""))

/-- A parsed member declaration of an FJOIN line. -/
structure Decl where
  pfxs : List Char
  nick : String
deriving Repr, DecidableEq

/-- The wire form of a member declaration: `<prefixes>,<nick>`. -/
def declString (d : Decl) : String :=
  ⟨d.pfxs ++ ',' :: d.nick.data⟩

/-- All status modes an FJOIN declares, as `(letter, nick)` pairs. -/
def declaredPairs (env : FJoinEnv) (decls : List Decl) : List (Char × String) :=
  decls.flatMap
    (fun d => ((parsePerms env d.pfxs).getD []).map (fun letter => (letter, d.nick)))

/-- Splitting a member token at its first comma recovers the prefix part
and the nick part. -/
theorem takeWhile_append_comma (l rest : List Char) (h : ',' ∉ l) :
    (l ++ ',' :: rest).takeWhile (· ≠ ',') = l ∧
    (l ++ ',' :: rest).dropWhile (· ≠ ',') = ',' :: rest := by
  induction l with
  | nil => simp
  | cons a as ih =>
      have ha : a ≠ ',' := by
        intro e
        exact h (e ▸ List.mem_cons_self a as)
      have hrec := ih (fun hm => h (List.mem_cons_of_mem a hm))
      simp only [ne_eq, decide_not] at hrec ⊢
      simp [ha, hrec.1, hrec.2]

/-- The nick recovered from the wire form of a declaration. -/
theorem tokNick_declString (d : Decl) (h : ',' ∉ d.pfxs) :
    tokNick (declString d) = d.nick := by
  show (⟨((d.pfxs ++ ',' :: d.nick.data).dropWhile (· ≠ ',')).drop 1⟩ : String) = d.nick
  rw [(takeWhile_append_comma d.pfxs d.nick.data h).2]
  rfl

/-- Processing the declarations of an FJOIN whose prefixes are all valid,
whose nicks all exist, and whose routes all point back along the arrival
link joins exactly the declared nicks and collects exactly the declared
status modes. -/
theorem fjoinFold (env : FJoinEnv) (thisSocket : Nat) (now : Int) (decls : List Decl)
    (c : ChanRec) (acc : List (Char × String))
    (hcomma : ∀ d ∈ decls, ',' ∉ d.pfxs)
    (hval : ∀ d ∈ decls, (parsePerms env d.pfxs).isSome)
    (hex : ∀ d ∈ decls, env.userExists d.nick = true)
    (hdir : ∀ d ∈ decls, env.routeSocketOf (env.userServer d.nick) = some thisSocket) :
    (decls.map declString).foldl (fjoinStep env thisSocket now) ⟨some c, acc, none⟩ =
      ⟨some { c with members := joinNicks c.members (decls.map (·.nick)) },
       acc ++ declaredPairs env decls, none⟩ := by
  induction decls generalizing c acc with
  | nil => simp [joinNicks, declaredPairs]
  | cons d ds ih =>
      obtain ⟨letters, hlet⟩ :=
        Option.isSome_iff_exists.mp (hval d (List.mem_cons_self d ds))
      have hc := hcomma d (List.mem_cons_self d ds)
      have hdata : (declString d).data = d.pfxs ++ ',' :: d.nick.data := rfl
      have htok := tokNick_declString d hc
      have hstep : fjoinStep env thisSocket now ⟨some c, acc, none⟩ (declString d) =
          ⟨some { c with members := joinMember c.members d.nick },
           acc ++ letters.map (fun letter => (letter, d.nick)), none⟩ := by
        rw [fjoinStep]
        simp only [Option.isSome_none, Bool.false_eq_true, if_false, hdata,
          (takeWhile_append_comma d.pfxs d.nick.data hc).1, htok, hlet]
        simp [hex d (List.mem_cons_self d ds), hdir d (List.mem_cons_self d ds),
          fjoinJoin]
      rw [List.map_cons, List.foldl_cons, hstep,
        ih { c with members := joinMember c.members d.nick }
          (acc ++ letters.map (fun letter => (letter, d.nick)))
          (fun x hx => hcomma x (List.mem_cons_of_mem d hx))
          (fun x hx => hval x (List.mem_cons_of_mem d hx))
          (fun x hx => hex x (List.mem_cons_of_mem d hx))
          (fun x hx => hdir x (List.mem_cons_of_mem d hx))]
      simp [joinNicks, declaredPairs, hlet, List.append_assoc]

/-- Claim C3: an FJOIN for an existing channel whose local timestamp is
strictly greater than the carried timestamp lowers the channel TS to the
carried one, removes every status mode held by every existing member,
emits the removals as confirming FMODE lines toward the peer servers, and
then adds the members the FJOIN lists with the prefixes the line declares
for them. -/
theorem forceJoin_we_lose (env : FJoinEnv) (thisSocket : Nat) (now : Int)
    (chanName tsStr blob : String) (c0 : ChanRec) (decls : List Decl)
    (hTS : atoi tsStr < c0.age)
    (hsplit : fjoinTokens blob = decls.map declString)
    (hcomma : ∀ d ∈ decls, ',' ∉ d.pfxs)
    (hval : ∀ d ∈ decls, (parsePerms env d.pfxs).isSome)
    (hex : ∀ d ∈ decls, env.userExists d.nick = true)
    (hdir : ∀ d ∈ decls, env.routeSocketOf (env.userServer d.nick) = some thisSocket) :
    forceJoin env thisSocket now (some c0) [chanName, tsStr, blob] =
      ⟨some ⟨atoi tsStr,
          applyPairs (joinNicks (clearStatus c0.members) (decls.map (·.nick)))
            (declaredPairs env decls)⟩,
        removeStatusPairs c0.members, true, none⟩ := by
  rw [forceJoin, if_neg (by simp)]
  rw [show List.getD [chanName, tsStr, blob] 1 "" = tsStr from rfl]
  rw [show List.getD [chanName, tsStr, blob] 2 "" = blob from rfl]
  rw [hsplit]
  have hour : fjoinOurTS now (some c0) = c0.age := rfl
  have hlow : fjoinLower (some c0) (atoi tsStr) c0.age =
      (some ⟨atoi tsStr, clearStatus c0.members⟩, removeStatusPairs c0.members) := by
    rw [fjoinLower, if_pos hTS]
  have hfold := fjoinFold env thisSocket now decls
    ⟨atoi tsStr, clearStatus c0.members⟩ [] hcomma hval hex hdir
  simp only [forceJoinChecked, hour, hlow]
  rw [if_pos hTS]
  simp only [hfold]
  simp [applyPairs]

/-- The concrete environment of the C3 witness: prefixes `@%+` map to
`ohv`, nicks `carol` and `dave` exist on server `peer.net`, which is routed
through socket 7. -/
def fjEnvW : FJoinEnv :=
  ⟨fun p => if p = '@' then some 'o' else if p = '%' then some 'h'
            else if p = '+' then some 'v' else none,
   fun n => n == "carol" || n == "dave",
   fun _ => "peer.net",
   fun s => if s = "peer.net" then some 7 else none⟩

/-- Witness for C3 at a concrete input: channel with TS 2000 and members
alice@op and bob@voice receives `FJOIN #c 1000 :@,carol ,dave` — the TS
drops to 1000, alice and bob lose their statuses (emitted as the removal
pairs), and carol joins with op, dave with nothing. -/
theorem forceJoin_we_lose_witness :
    forceJoin fjEnvW 7 5000 (some ⟨2000, [⟨"alice", ['o']⟩, ⟨"bob", ['v']⟩]⟩)
        ["#c", "1000", "@,carol ,dave"] =
      ⟨some ⟨1000, [⟨"alice", []⟩, ⟨"bob", []⟩, ⟨"carol", ['o']⟩, ⟨"dave", []⟩]⟩,
        [('o', "alice"), ('v', "bob")], true, none⟩ := by
  have h := forceJoin_we_lose fjEnvW 7 5000 "#c" "1000" "@,carol ,dave"
    ⟨2000, [⟨"alice", ['o']⟩, ⟨"bob", ['v']⟩]⟩ [⟨['@'], "carol"⟩, ⟨[], "dave"⟩]
    (by decide) (by decide) (by decide) (by decide) (by decide) (by decide)
  exact h.trans (by decide)

end Insp
